import Mathlib

/-!
Shallow embedding of the reaching-definitions / points-to core of the `dg`
repository: `src/analysis/ReachingDefinitions/RDMap.cpp` and
`src/llvm/PointsTo.h`.

Machine integers (`uint64_t`) are modelled as `Nat` with explicit `% 2^64`
where the source performs arithmetic.  `RDNode *` / `MemoryObj *` pointers are
modelled as natural-number handles (pointer identity = handle equality);
the attributes the algorithms read off an `RDNode` (`getSize`, `getType`,
`isUnknown`) are supplied by an environment record `NodeInfo`.
`std::map` / `std::set` are modelled as association lists kept sorted by the
key order, so that iteration order — which the merge algorithm observes —
is explicit.
-/

namespace DG

/-- The modulus of `uint64_t` arithmetic. -/
def U64MOD : Nat := 2 ^ 64

/-- `UNKNOWN_OFFSET` from `PointsTo.h`: `~((uint64_t) 0)`, i.e. `2^64 - 1`. -/
def UNKNOWN_OFFSET : Nat := U64MOD - 1

/-- `uint64_t` addition (wraps around). -/
def u64add (a b : Nat) : Nat := (a + b) % U64MOD

/-- `uint64_t` decrement by one (wraps around), used for the inclusive
interval ends `start + len - 1` in `RDMap::get`. -/
def u64dec (a : Nat) : Nat := (a + (U64MOD - 1)) % U64MOD

/-- `struct Offset` from `PointsTo.h`: a wrapper around a `uint64_t`. -/
structure Offset where
  offset : Nat
deriving DecidableEq, Repr

/-- `Offset::isUnknown`. -/
def Offset.isUnknown (o : Offset) : Bool := o.offset == UNKNOWN_OFFSET

/-- `Offset::operator+` from `PointsTo.h`: saturates to `UNKNOWN_OFFSET` if
either operand is unknown, otherwise `uint64_t` addition. -/
def Offset.add (a b : Offset) : Offset :=
  if a.offset = UNKNOWN_OFFSET ∨ b.offset = UNKNOWN_OFFSET then ⟨UNKNOWN_OFFSET⟩
  else ⟨u64add a.offset b.offset⟩

/-- An `Offset` holds a `uint64_t` value. -/
def Offset.wf (o : Offset) : Prop := o.offset < U64MOD

/-- An `RDNode *` handle (pointer identity = handle equality). -/
abbrev RDNode := Nat

/-- The attributes the merge algorithm reads from an `RDNode`:
`getSize()`, `getType() == RDNodeType::DYN_ALLOC`, and `isUnknown()`
(the node is the unknown-memory node).  These live on the graph nodes,
outside the two source files, so they are supplied as an environment. -/
structure NodeInfo where
  size : RDNode → Nat
  isDynAlloc : RDNode → Bool
  unknownMem : RDNode → Bool

/-- `DefSite`: a (target, offset, length) triple. -/
structure DefSite where
  target : RDNode
  offset : Offset
  len : Offset
deriving DecidableEq, Repr

/-- Modelled from the spec: the ordering of `DefSite` (declared in the
missing `RDMap.h`).  Primary key is the target identity, secondary the
offset (`UNKNOWN` sorting as the maximum value), then the length. -/
def DefSite.ltb (a b : DefSite) : Bool :=
  decide (a.target < b.target) ||
    (decide (a.target = b.target) &&
      (decide (a.offset.offset < b.offset.offset) ||
        (decide (a.offset.offset = b.offset.offset) &&
          decide (a.len.offset < b.len.offset))))

/-- Modelled from the spec: `RDNodesSet` (declared in the missing `RDMap.h`).
A set of definition nodes together with a "collapsed to unknown" flag;
`makeUnknown` clears the membership tracking and records the flag, and
inserts into an unknown set are no-ops. -/
structure RDNodesSet where
  nodes : Finset RDNode
  unknown : Bool
deriving DecidableEq

/-- The empty, precise node set (default-constructed `RDNodesSet`). -/
def RDNodesSet.emptySet : RDNodesSet := ⟨∅, false⟩

/-- `RDNodesSet::makeUnknown`: discard the members, record the flag. -/
def RDNodesSet.makeUnknown (_s : RDNodesSet) : RDNodesSet := ⟨∅, true⟩

/-- `RDNodesSet::size`: the number of enumerable members. -/
def RDNodesSet.size (s : RDNodesSet) : Nat := s.nodes.card

/-- The loop `for (defnode : src) changed |= dst.insert(defnode)`:
inserting a collection of nodes one by one.  Inserts into an unknown set
are no-ops returning `false`; otherwise the result records whether any
element was new. -/
def RDNodesSet.insertMany (s : RDNodesSet) (ns : Finset RDNode) : RDNodesSet × Bool :=
  if s.unknown then (s, false)
  else (⟨s.nodes ∪ ns, false⟩, decide (¬ ns ⊆ s.nodes))

/-- Conservative membership: an unknown set represents every node. -/
def RDNodesSet.holds (s : RDNodesSet) (n : RDNode) : Bool :=
  s.unknown || decide (n ∈ s.nodes)

/-- The contents of `std::map<DefSite, RDNodesSet> defs`, as an association
list sorted by `DefSite.ltb`. -/
abbrev Entries := List (DefSite × RDNodesSet)

/-- Sortedness invariant of the `std::map` (strictly increasing keys). -/
def sortedEntries (m : Entries) : Prop :=
  m.Pairwise (fun a b => DefSite.ltb a.1 b.1 = true)

/-- `defs.find(k)` — the value stored at key `k`, if present. -/
def mapFind : Entries → DefSite → Option RDNodesSet
  | [], _ => none
  | e :: t, k => if e.1 = k then some e.2 else mapFind t k

/-- The value `defs[k]` reads: the stored value, or a default-constructed
empty set if the key is absent. -/
def mapFindD (m : Entries) (k : DefSite) : RDNodesSet :=
  (mapFind m k).getD RDNodesSet.emptySet

/-- Store value `v` at key `k` (the effect of writing through `defs[k]`),
keeping the list sorted. -/
def mapSet : Entries → DefSite → RDNodesSet → Entries
  | [], k, v => [(k, v)]
  | e :: t, k, v =>
    if DefSite.ltb k e.1 then (k, v) :: e :: t
    else if e.1 = k then (k, v) :: t
    else e :: mapSet t k v

/-- `getObjectRange`: all entries whose target is `t` (on a sorted map this
is the contiguous range `std::equal_range` returns, compared by target). -/
def entriesFor (m : Entries) (t : RDNode) : Entries :=
  m.filter (fun e => e.1.target == t)

/-- Erasing every entry of target `t` from the map. -/
def eraseTarget (m : Entries) (t : RDNode) : Entries :=
  m.filter (fun e => !(e.1.target == t))

/-- `equal_range(no_update->begin(), no_update->end(), ds, comp_ds)`:
the kill-set entries whose target matches (in stored order). -/
def killsFor (ks : List DefSite) (t : RDNode) : List DefSite :=
  ks.filter (fun k => k.target == t)

/-- The sortedness invariant of the `std::set<DefSite>` kill set. -/
def sortedKills (ks : List DefSite) : Prop :=
  ks.Pairwise (fun a b => DefSite.ltb a b = true)

/-- The covering test of `RDMap::merge` (lines 129-130):
`*ds.offset >= *ds2.offset && *ds.offset + *ds.len <= *ds2.offset + *ds2.len`,
with `uint64_t` additions. -/
def covers (k ds : DefSite) : Bool :=
  decide (k.offset.offset ≤ ds.offset.offset) &&
    decide (u64add ds.offset.offset ds.len.offset ≤ u64add k.offset.offset k.len.offset)

/-- Result of the kill-set scan loop of `RDMap::merge` (lines 113-134). -/
inductive ScanResult where
  | skip
  | markUnknown
  | keep
deriving DecidableEq, Repr

/-- The kill-set scan loop of `RDMap::merge` (lines 113-134): walk the
same-target kill entries in order; a kill entry with unknown offset marks
the incoming site unknown and stops; a covering entry causes a skip. -/
def scanKills (ds : DefSite) : List DefSite → ScanResult
  | [] => .keep
  | k :: rest =>
    if k.offset.isUnknown then .markUnknown
    else if covers k ds then .skip
    else scanKills ds rest

/-- The whole-memory overwrite search of `RDMap::merge` (lines 94-102):
is there a kill entry for this target with offset `0` and length at least
the target's size? -/
def overwritesWholeMemory (env : NodeInfo) (ds : DefSite) (ks : List DefSite) : Bool :=
  (killsFor ks ds.target).any
    (fun k => decide (k.offset.offset = 0) && decide (env.size ds.target ≤ k.len.offset))

/-- The strong-update decision of `RDMap::merge` (lines 70-141):
`none` means the incoming site is skipped (strong update); `some b`
means it is merged, with `b` the (possibly reclassified) `is_unknown`
flag used by the folding step. -/
def killOutcome (env : NodeInfo) (ds : DefSite) (noUpdate : Option (List DefSite))
    (strong_update_unknown : Bool) : Option Bool :=
  let is_unknown := ds.offset.isUnknown
  match noUpdate with
  | none => some is_unknown
  | some ks =>
    if strong_update_unknown && is_unknown && decide (0 < env.size ds.target) then
      if overwritesWholeMemory env ds ks then none else some is_unknown
    else if !(env.isDynAlloc ds.target) then
      match scanKills ds (killsFor ks ds.target) with
      | .skip => none
      | .markUnknown => some true
      | .keep => some is_unknown
    else some is_unknown

/-- The node sets of all entries for target `t` other than the
unknown-offset entry `ukey` (the sets gathered by the folding loop,
lines 152-170). -/
def foldConcretes (m : Entries) (t : RDNode) (ukey : DefSite) : Finset RDNode :=
  ((m.filter (fun e => e.1.target == t && !(e.1 == ukey))).foldr
    (fun e acc => e.2.nodes ∪ acc) ∅)

/-- The set-size cap of `RDMap::merge` (lines 187-188). -/
def capSet (env : NodeInfo) (t : RDNode) (max_set_size : Nat) (s : RDNodesSet) : RDNodesSet :=
  if !(env.unknownMem t) && decide (max_set_size < s.size) then s.makeUnknown else s

/-- One iteration of the main loop of `RDMap::merge` (lines 68-189),
processing a single `(DefSite, RDNodesSet)` pair of the other map. -/
def mergeOne (env : NodeInfo) (m : Entries) (ds : DefSite) (vals : RDNodesSet)
    (noUpdate : Option (List DefSite)) (strong_update_unknown : Bool)
    (max_set_size : Nat) (merge_unknown : Bool) : Entries × Bool :=
  match killOutcome env ds noUpdate strong_update_unknown with
  | none => (m, false)
  | some is_unknown =>
    if merge_unknown && is_unknown then
      let ukey : DefSite := ⟨ds.target, ⟨UNKNOWN_OFFSET⟩, ⟨UNKNOWN_OFFSET⟩⟩
      let base := mapFindD m ukey
      let r1 := base.insertMany (foldConcretes m ds.target ukey)
      let r2 := r1.1.insertMany vals.nodes
      let fin := capSet env ds.target max_set_size r2.1
      (mapSet (eraseTarget m ds.target) ukey fin, r1.2 || r2.2)
    else
      let base := mapFindD m ds
      let r2 := base.insertMany vals.nodes
      let fin := capSet env ds.target max_set_size r2.1
      (mapSet m ds fin, r2.2)

/-- The main loop of `RDMap::merge`, iterating the other map's entries in
order and accumulating the `changed` flag. -/
def mergeList (env : NodeInfo) (noUpdate : Option (List DefSite))
    (strong_update_unknown : Bool) (max_set_size : Nat) (merge_unknown : Bool) :
    Entries → List (DefSite × RDNodesSet) → Bool → Entries × Bool
  | m, [], ch => (m, ch)
  | m, e :: rest, ch =>
    let r := mergeOne env m e.1 e.2 noUpdate strong_update_unknown max_set_size merge_unknown
    mergeList env noUpdate strong_update_unknown max_set_size merge_unknown r.1 rest (ch || r.2)

/-- `RDMap`: the reaching-definitions map. -/
structure RDMap where
  defs : Entries
deriving DecidableEq

/-- `RDMap::merge` (lines 58-192).  `same` models the pointer-identity test
`this == oth`, which short-circuits a self-merge. -/
def RDMap.merge (env : NodeInfo) (m oth : RDMap) (same : Bool)
    (noUpdate : Option (List DefSite)) (strong_update_unknown : Bool)
    (max_set_size : Nat) (merge_unknown : Bool) : RDMap × Bool :=
  if same then (m, false)
  else
    let r := mergeList env noUpdate strong_update_unknown max_set_size merge_unknown
      m.defs oth.defs false
    (⟨r.1⟩, r.2)

/-- Modelled from the spec: the copy constructor `RDMap::RDMap(const RDMap&)`
calls `merge(&o)`; the defaulted arguments live in the missing `RDMap.h`.
Per the spec it performs a full merge from empty: no kill set, no folding,
with the (32-bit) set-size cap at its maximum. -/
def RDMap.copyCtor (env : NodeInfo) (o : RDMap) : RDMap :=
  (RDMap.merge env ⟨[]⟩ o false none true (2 ^ 32 - 1) false).1

/-- `RDMap::add` (lines 194-197). -/
def RDMap.add (m : RDMap) (p : DefSite) (n : RDNode) : RDMap × Bool :=
  let dfs := mapFindD m.defs p
  if dfs.unknown then (⟨mapSet m.defs p dfs⟩, false)
  else (⟨mapSet m.defs p ⟨insert n dfs.nodes, false⟩⟩, decide (n ∉ dfs.nodes))

/-- `RDMap::definesWithAnyOffset` (lines 211-215). -/
def RDMap.definesWithAnyOffset (m : RDMap) (ds : DefSite) : Bool :=
  !(entriesFor m.defs ds.target).isEmpty

/-- Modelled from the spec: `intervalsOverlap` (declared in the missing
`RDMap.h`): the inclusive numeric ranges `[a1, a2]` and `[b1, b2]`
intersect, i.e. `a1 <= b2 && b1 <= a2`. -/
def intervalsOverlap (a1 a2 b1 b2 : Nat) : Bool :=
  decide (a1 ≤ b2) && decide (b1 ≤ a2)

/-- The per-candidate test of `RDMap::get` for a concrete-offset query
(lines 238-247): the candidate's offset is unknown, or the query length is
unknown and the candidate starts at or after the query, or the inclusive
byte ranges (ends computed with `uint64_t` wraparound) overlap. -/
def getMatches (ds cand : DefSite) : Bool :=
  cand.offset.isUnknown ||
    (ds.len.isUnknown && decide (ds.offset.offset ≤ cand.offset.offset)) ||
    intervalsOverlap cand.offset.offset (u64dec (u64add cand.offset.offset cand.len.offset))
      ds.offset.offset (u64dec (u64add ds.offset.offset ds.len.offset))

/-- `RDMap::get(DefSite&, std::set<RDNode*>&)` (lines 224-254): insert the
node sets of the matching entries into `ret` and return its final size. -/
def RDMap.get (m : RDMap) (ds : DefSite) (ret : Finset RDNode) : Finset RDNode × Nat :=
  let res :=
    if ds.offset.isUnknown then
      (entriesFor m.defs ds.target).foldr (fun e acc => e.2.nodes ∪ acc) ret
    else
      (entriesFor m.defs ds.target).foldr
        (fun e acc => if getMatches ds e.1 then e.2.nodes ∪ acc else acc) ret
  (res, res.card)

/-- `RDMap::get(RDNode*, const Offset&, const Offset&, std::set<RDNode*>&)`
(lines 217-222): builds a `DefSite` and delegates. -/
def RDMap.getNOL (m : RDMap) (n : RDNode) (off len : Offset) (ret : Finset RDNode) :
    Finset RDNode × Nat :=
  m.get ⟨n, off, len⟩ ret

/-- `struct Pointer` from `PointsTo.h`: a (memory-object handle, offset)
pair. -/
structure Pointer where
  obj : Nat
  offset : Offset
deriving DecidableEq, Repr

/-- `PointsToMapT`: `std::map<Offset, PointsToSetT>`, as an association list
sorted by the offset value (`Offset::operator<` on the raw `uint64_t`). -/
abbrev PointsToMap := List (Nat × Finset Pointer)

/-- `pointsTo[off].insert(ptr)`: insert `ptr` into the set at key `off`
(creating it if needed); the flag is `.second` of the set insertion. -/
def ptmInsert : PointsToMap → Nat → Pointer → PointsToMap × Bool
  | [], off, p => ([(off, {p})], true)
  | e :: t, off, p =>
    if off < e.1 then ((off, {p}) :: e :: t, true)
    else if off = e.1 then ((off, insert p e.2) :: t, decide (p ∉ e.2))
    else
      let r := ptmInsert t off p
      (e :: r.1, r.2)

/-- `struct MemoryObj` from `PointsTo.h`: the `LLVMNode *node` pointer is a
nullable handle (`none` models `nullptr`). -/
structure MemoryObj where
  node : Option Nat
  pointsTo : PointsToMap
deriving DecidableEq

/-- `MemoryObj::isUnknown`: `node == nullptr`. -/
def MemoryObj.isUnknown (m : MemoryObj) : Bool := m.node == none

/-- `MemoryObj::addPointsTo` (lines 81-87). -/
def MemoryObj.addPointsTo (m : MemoryObj) (off : Offset) (ptr : Pointer) :
    MemoryObj × Bool :=
  if m.isUnknown then (m, false)
  else
    let r := ptmInsert m.pointsTo off.offset ptr
    (⟨m.node, r.1⟩, r.2)

/-- `MemoryObj::setUnknown` (lines 90-98). -/
def MemoryObj.setUnknown (m : MemoryObj) : MemoryObj × Bool :=
  if m.isUnknown then (m, false)
  else (⟨none, []⟩, true)

/-! ### Order lemmas for the `DefSite` key -/

theorem DefSite.ltb_iff (a b : DefSite) : a.ltb b = true ↔
    (a.target < b.target ∨ (a.target = b.target ∧
      (a.offset.offset < b.offset.offset ∨ (a.offset.offset = b.offset.offset ∧
        a.len.offset < b.len.offset)))) := by
  simp [DefSite.ltb]

theorem DefSite.ltb_irrefl (a : DefSite) : a.ltb a = false := by
  simp [DefSite.ltb]

theorem DefSite.ltb_trans {a b c : DefSite} (h1 : a.ltb b = true) (h2 : b.ltb c = true) :
    a.ltb c = true := by
  rw [DefSite.ltb_iff] at h1 h2 ⊢
  rcases h1 with h1 | ⟨e1, h1⟩ <;> rcases h2 with h2 | ⟨e2, h2⟩
  · exact Or.inl (lt_trans h1 h2)
  · exact Or.inl (e2 ▸ h1)
  · exact Or.inl (e1 ▸ h2)
  · refine Or.inr ⟨e1.trans e2, ?_⟩
    rcases h1 with h1 | ⟨f1, h1⟩ <;> rcases h2 with h2 | ⟨f2, h2⟩
    · exact Or.inl (lt_trans h1 h2)
    · exact Or.inl (f2 ▸ h1)
    · exact Or.inl (f1 ▸ h2)
    · exact Or.inr ⟨f1.trans f2, lt_trans h1 h2⟩

theorem DefSite.ltb_total {a b : DefSite} (h1 : a.ltb b = false) (h2 : b.ltb a = false) :
    a = b := by
  obtain ⟨t1, ⟨o1⟩, ⟨l1⟩⟩ := a
  obtain ⟨t2, ⟨o2⟩, ⟨l2⟩⟩ := b
  simp [DefSite.ltb] at h1 h2
  obtain ⟨ha1, hb1⟩ := h1
  obtain ⟨ha2, hb2⟩ := h2
  have ht : t1 = t2 := Nat.le_antisymm ha2 ha1
  subst ht
  obtain ⟨hc1, hd1⟩ := hb1 rfl
  obtain ⟨hc2, hd2⟩ := hb2 rfl
  have ho : o1 = o2 := by omega
  subst ho
  have hl : l1 = l2 := by omega
  subst hl
  rfl

theorem DefSite.ltb_asymm {a b : DefSite} (h : a.ltb b = true) : b.ltb a = false := by
  cases hc : b.ltb a
  · rfl
  · exact absurd (DefSite.ltb_trans h hc) (by simp [DefSite.ltb_irrefl])

theorem DefSite.ne_of_ltb {a b : DefSite} (h : a.ltb b = true) : a ≠ b := by
  rintro rfl
  simp [DefSite.ltb_irrefl] at h

/-! ### Association-list map lemmas -/

theorem mapFind_mapSet_self (m : Entries) (k : DefSite) (v : RDNodesSet) :
    mapFind (mapSet m k v) k = some v := by
  induction m with
  | nil => simp [mapSet, mapFind]
  | cons e t ih =>
    by_cases h2 : e.1 = k
    · simp [mapSet, h2, DefSite.ltb_irrefl, mapFind]
    · by_cases h1 : DefSite.ltb k e.1 = true
      · simp [mapSet, h1, mapFind]
      · simp [mapSet, h1, h2, mapFind, ih]

theorem mapFind_mapSet_ne (m : Entries) (k k' : DefSite) (v : RDNodesSet) (h : k' ≠ k) :
    mapFind (mapSet m k v) k' = mapFind m k' := by
  induction m with
  | nil => simp [mapSet, mapFind, Ne.symm h]
  | cons e t ih =>
    by_cases h2 : e.1 = k
    · simp [mapSet, h2, DefSite.ltb_irrefl, mapFind, Ne.symm h]
    · by_cases h1 : DefSite.ltb k e.1 = true
      · simp [mapSet, h1, mapFind, Ne.symm h]
      · by_cases h3 : e.1 = k'
        · simp only [mapSet, if_neg h1, if_neg h2, mapFind, if_pos h3]
        · simp only [mapSet, if_neg h1, if_neg h2, mapFind, if_neg h3]
          exact ih

theorem mapFind_mem {m : Entries} {k : DefSite} {v : RDNodesSet}
    (h : mapFind m k = some v) : (k, v) ∈ m := by
  induction m with
  | nil => simp [mapFind] at h
  | cons e t ih =>
    by_cases h1 : e.1 = k
    · simp only [mapFind, if_pos h1] at h
      cases h
      exact List.mem_cons.mpr (Or.inl (by rw [← h1]))
    · simp only [mapFind, if_neg h1] at h
      exact List.mem_cons_of_mem _ (ih h)

theorem mapFind_eq_none (m : Entries) (k : DefSite) (h : ∀ e ∈ m, e.1 ≠ k) :
    mapFind m k = none := by
  induction m with
  | nil => rfl
  | cons e t ih =>
    have he : e.1 ≠ k := h e (List.mem_cons_self e t)
    simp only [mapFind, if_neg he]
    exact ih (fun x hx => h x (List.mem_cons_of_mem _ hx))

theorem mapFind_of_sorted_mem {m : Entries} (hs : sortedEntries m)
    {e : DefSite × RDNodesSet} (he : e ∈ m) : mapFind m e.1 = some e.2 := by
  induction m with
  | nil => simp at he
  | cons x t ih =>
    rcases List.mem_cons.mp he with rfl | ht
    · simp [mapFind]
    · rcases List.pairwise_cons.mp hs with ⟨hx, hst⟩
      have : x.1 ≠ e.1 := DefSite.ne_of_ltb (hx e ht)
      simp only [mapFind, if_neg this]
      exact ih hst ht

theorem mapSet_mem_self (m : Entries) (k : DefSite) (v : RDNodesSet) :
    (k, v) ∈ mapSet m k v := by
  induction m with
  | nil => simp [mapSet]
  | cons e t ih =>
    by_cases h2 : e.1 = k
    · simp [mapSet, h2, DefSite.ltb_irrefl]
    · by_cases h1 : DefSite.ltb k e.1 = true
      · simp [mapSet, h1]
      · simp only [mapSet, if_neg h1, if_neg h2]
        exact List.mem_cons_of_mem _ ih

theorem mapSet_mem_inv {m : Entries} {k : DefSite} {v : RDNodesSet}
    {e : DefSite × RDNodesSet} (h : e ∈ mapSet m k v) : e ∈ m ∨ e = (k, v) := by
  induction m with
  | nil => simp [mapSet] at h; right; exact h
  | cons x t ih =>
    by_cases h1 : DefSite.ltb k x.1 = true
    · simp only [mapSet, if_pos h1] at h
      rcases List.mem_cons.mp h with rfl | h
      · right; rfl
      · left; exact h
    · by_cases h2 : x.1 = k
      · simp only [mapSet, if_neg h1, if_pos h2] at h
        rcases List.mem_cons.mp h with rfl | h
        · right; rfl
        · left; exact List.mem_cons_of_mem _ h
      · simp only [mapSet, if_neg h1, if_neg h2] at h
        rcases List.mem_cons.mp h with rfl | h
        · left; exact List.mem_cons_self _ _
        · rcases ih h with h | h
          · left; exact List.mem_cons_of_mem _ h
          · right; exact h

theorem mapSet_sorted {m : Entries} (hs : sortedEntries m) (k : DefSite) (v : RDNodesSet) :
    sortedEntries (mapSet m k v) := by
  induction m with
  | nil =>
    simp [mapSet, sortedEntries]
  | cons e t ih =>
    rcases List.pairwise_cons.mp hs with ⟨he, hst⟩
    by_cases h1 : DefSite.ltb k e.1 = true
    · simp only [mapSet, if_pos h1]
      refine List.pairwise_cons.mpr ⟨?_, hs⟩
      intro y hy
      rcases List.mem_cons.mp hy with rfl | hy
      · exact h1
      · exact DefSite.ltb_trans h1 (he y hy)
    · by_cases h2 : e.1 = k
      · simp only [mapSet, if_neg h1, if_pos h2]
        refine List.pairwise_cons.mpr ⟨?_, hst⟩
        intro y hy
        rw [← h2]
        exact he y hy
      · simp only [mapSet, if_neg h1, if_neg h2]
        refine List.pairwise_cons.mpr ⟨?_, ih hst⟩
        intro y hy
        rcases mapSet_mem_inv hy with hy | rfl
        · exact he y hy
        · by_cases hek : DefSite.ltb e.1 k = true
          · exact hek
          · have hkf : DefSite.ltb k e.1 = false := by simpa using h1
            have hef : DefSite.ltb e.1 k = false := by simpa using hek
            exact absurd (DefSite.ltb_total hef hkf) h2

theorem mapSet_eq_self {m : Entries} (hs : sortedEntries m) {k : DefSite} {v : RDNodesSet}
    (h : mapFind m k = some v) : mapSet m k v = m := by
  induction m with
  | nil => simp [mapFind] at h
  | cons e t ih =>
    rcases List.pairwise_cons.mp hs with ⟨he, hst⟩
    by_cases h2 : e.1 = k
    · simp only [mapFind, if_pos h2] at h
      injection h with hv
      have h1 : ¬ DefSite.ltb k e.1 = true := by
        rw [h2]
        simp [DefSite.ltb_irrefl]
      simp only [mapSet, if_neg h1, if_pos h2]
      rw [← h2, ← hv]
    · simp only [mapFind, if_neg h2] at h
      have hkt : (k, v) ∈ t := mapFind_mem h
      have hek : DefSite.ltb e.1 k = true := he (k, v) hkt
      have h1 : ¬ DefSite.ltb k e.1 = true := by
        simp [DefSite.ltb_asymm hek]
      simp only [mapSet, if_neg h1, if_neg h2]
      rw [ih hst h]

theorem mapSet_append {m : Entries} (k : DefSite) (v : RDNodesSet)
    (h : ∀ e ∈ m, DefSite.ltb e.1 k = true) : mapSet m k v = m ++ [(k, v)] := by
  induction m with
  | nil => simp [mapSet]
  | cons e t ih =>
    have hek : DefSite.ltb e.1 k = true := h e (List.mem_cons_self e t)
    have h1 : ¬ DefSite.ltb k e.1 = true := by simp [DefSite.ltb_asymm hek]
    have h2 : e.1 ≠ k := DefSite.ne_of_ltb hek
    simp only [mapSet, if_neg h1, if_neg h2, List.cons_append]
    rw [ih (fun x hx => h x (List.mem_cons_of_mem _ hx))]

theorem eraseTarget_sorted {m : Entries} (hs : sortedEntries m) (t : RDNode) :
    sortedEntries (eraseTarget m t) :=
  hs.filter _

/-! ### Reduction equations for `mergeOne` -/

theorem RDNodesSet.eta_precise {s : RDNodesSet} (h : s.unknown = false) :
    (⟨s.nodes, false⟩ : RDNodesSet) = s := by
  cases s
  simp_all

theorem insertMany_unknown {s : RDNodesSet} (h : s.unknown = true) (ns : Finset RDNode) :
    s.insertMany ns = (s, false) := by
  simp [RDNodesSet.insertMany, h]

theorem insertMany_precise {s : RDNodesSet} (h : s.unknown = false) (ns : Finset RDNode) :
    s.insertMany ns = (⟨s.nodes ∪ ns, false⟩, decide (¬ ns ⊆ s.nodes)) := by
  simp [RDNodesSet.insertMany, h]

theorem capSet_eq_self {env : NodeInfo} {t : RDNode} {mss : Nat} {s : RDNodesSet}
    (h : env.unknownMem t = true ∨ s.nodes.card ≤ mss) : capSet env t mss s = s := by
  unfold capSet
  rcases h with h | h
  · simp [h]
  · have : ¬ mss < s.size := by simp [RDNodesSet.size]; exact h
    simp [this]

theorem mergeOne_skip {env : NodeInfo} {m : Entries} {ds : DefSite} {vals : RDNodesSet}
    {noUpd : Option (List DefSite)} {su : Bool} {mss : Nat} {fold : Bool}
    (hk : killOutcome env ds noUpd su = none) :
    mergeOne env m ds vals noUpd su mss fold = (m, false) := by
  unfold mergeOne
  rw [hk]

theorem mergeOne_nofold {env : NodeInfo} {m : Entries} {ds : DefSite} {vals : RDNodesSet}
    {noUpd : Option (List DefSite)} {su : Bool} {mss : Nat} {b : Bool}
    (hk : killOutcome env ds noUpd su = some b) :
    mergeOne env m ds vals noUpd su mss false =
      (mapSet m ds (capSet env ds.target mss ((mapFindD m ds).insertMany vals.nodes).1),
        ((mapFindD m ds).insertMany vals.nodes).2) := by
  unfold mergeOne
  rw [hk]
  simp

theorem mergeOne_fold {env : NodeInfo} {m : Entries} {ds : DefSite} {vals : RDNodesSet}
    {noUpd : Option (List DefSite)} {su : Bool} {mss : Nat}
    (hk : killOutcome env ds noUpd su = some true) :
    mergeOne env m ds vals noUpd su mss true =
      (mapSet (eraseTarget m ds.target) ⟨ds.target, ⟨UNKNOWN_OFFSET⟩, ⟨UNKNOWN_OFFSET⟩⟩
        (capSet env ds.target mss
          (((mapFindD m ⟨ds.target, ⟨UNKNOWN_OFFSET⟩, ⟨UNKNOWN_OFFSET⟩⟩).insertMany
              (foldConcretes m ds.target ⟨ds.target, ⟨UNKNOWN_OFFSET⟩, ⟨UNKNOWN_OFFSET⟩⟩)).1.insertMany
            vals.nodes).1),
       ((mapFindD m ⟨ds.target, ⟨UNKNOWN_OFFSET⟩, ⟨UNKNOWN_OFFSET⟩⟩).insertMany
          (foldConcretes m ds.target ⟨ds.target, ⟨UNKNOWN_OFFSET⟩, ⟨UNKNOWN_OFFSET⟩⟩)).2 ||
        (((mapFindD m ⟨ds.target, ⟨UNKNOWN_OFFSET⟩, ⟨UNKNOWN_OFFSET⟩⟩).insertMany
            (foldConcretes m ds.target ⟨ds.target, ⟨UNKNOWN_OFFSET⟩, ⟨UNKNOWN_OFFSET⟩⟩)).1.insertMany
          vals.nodes).2) := by
  unfold mergeOne
  rw [hk]
  simp

theorem mergeOne_sorted {env : NodeInfo} {m : Entries} (hs : sortedEntries m)
    (ds : DefSite) (vals : RDNodesSet) (noUpd : Option (List DefSite)) (su : Bool)
    (mss : Nat) (fold : Bool) :
    sortedEntries (mergeOne env m ds vals noUpd su mss fold).1 := by
  unfold mergeOne
  cases hk : killOutcome env ds noUpd su with
  | none => exact hs
  | some b =>
    by_cases hf : (fold && b) = true
    · simp only [hf, if_pos]
      exact mapSet_sorted (eraseTarget_sorted hs ds.target) _ _
    · simp only [hf, Bool.false_eq_true, if_false]
      exact mapSet_sorted hs _ _

theorem mergeList_sorted (env : NodeInfo) (noUpd : Option (List DefSite)) (su : Bool)
    (mss : Nat) (fold : Bool) (l : List (DefSite × RDNodesSet)) :
    ∀ (m : Entries) (ch : Bool), sortedEntries m →
      sortedEntries (mergeList env noUpd su mss fold m l ch).1 := by
  induction l with
  | nil => intro m ch hs; exact hs
  | cons e rest ih =>
    intro m ch hs
    exact ih _ _ (mergeOne_sorted hs e.1 e.2 noUpd su mss fold)

/-! ### Stability: once a source entry is absorbed, re-merging it is a no-op -/

/-- The incoming pair `(ds, vals)` is already accounted for by the map `m`:
either the kill set skips it outright, or the map's entry at `ds` contains
its nodes (or is collapsed to unknown) and cannot be re-capped. -/
def stable (env : NodeInfo) (noUpd : Option (List DefSite)) (su : Bool) (mss : Nat)
    (m : Entries) (ds : DefSite) (vals : RDNodesSet) : Prop :=
  killOutcome env ds noUpd su = none ∨
    ∃ s, mapFind m ds = some s ∧ (s.unknown = true ∨ vals.nodes ⊆ s.nodes) ∧
      (env.unknownMem ds.target = true ∨ s.nodes.card ≤ mss)

theorem capSet_spec (env : NodeInfo) (t : RDNode) (mss : Nat) (s : RDNodesSet) :
    capSet env t mss s = s ∧ (env.unknownMem t = true ∨ s.nodes.card ≤ mss) ∨
      capSet env t mss s = ⟨∅, true⟩ := by
  by_cases h : (!(env.unknownMem t) && decide (mss < s.size)) = true
  · right
    unfold capSet
    rw [if_pos h]
    rfl
  · left
    have he : capSet env t mss s = s := by
      unfold capSet
      rw [if_neg h]
    refine ⟨he, ?_⟩
    cases hm : env.unknownMem t with
    | true => exact Or.inl rfl
    | false =>
      right
      by_contra hc
      apply h
      simp [hm, RDNodesSet.size]
      omega

theorem mergeOne_establishes_stable {env : NodeInfo} {m : Entries} {ds : DefSite}
    {vals : RDNodesSet} {noUpd : Option (List DefSite)} {su : Bool} {mss : Nat} :
    stable env noUpd su mss (mergeOne env m ds vals noUpd su mss false).1 ds vals := by
  cases hk : killOutcome env ds noUpd su with
  | none => exact Or.inl hk
  | some b =>
    right
    rw [mergeOne_nofold hk]
    refine ⟨_, mapFind_mapSet_self _ _ _, ?_⟩
    rcases capSet_spec env ds.target mss ((mapFindD m ds).insertMany vals.nodes).1 with
      ⟨hc, hsz⟩ | hc <;> rw [hc]
    · by_cases hu : (mapFindD m ds).unknown = true
      · rw [insertMany_unknown hu] at hsz ⊢
        exact ⟨Or.inl hu, hsz⟩
      · rw [insertMany_precise (Bool.of_not_eq_true hu)] at hsz ⊢
        exact ⟨Or.inr (Finset.subset_union_right), hsz⟩
    · exact ⟨Or.inl rfl, Or.inr (by simp)⟩

theorem mergeOne_preserves_stable {env : NodeInfo} {m : Entries} {k ds : DefSite}
    {v vals : RDNodesSet} {noUpd : Option (List DefSite)} {su : Bool} {mss : Nat}
    (h : stable env noUpd su mss m k v) :
    stable env noUpd su mss (mergeOne env m ds vals noUpd su mss false).1 k v := by
  rcases h with h | ⟨s, hf, hsub, hsz⟩
  · exact Or.inl h
  · cases hk : killOutcome env ds noUpd su with
    | none =>
      rw [mergeOne_skip hk]
      exact Or.inr ⟨s, hf, hsub, hsz⟩
    | some b =>
      rw [mergeOne_nofold hk]
      by_cases hkd : k = ds
      · subst hkd
        right
        refine ⟨_, mapFind_mapSet_self _ _ _, ?_⟩
        have hbase : mapFindD m k = s := by
          simp [mapFindD, hf]
        rw [hbase]
        rcases capSet_spec env k.target mss (s.insertMany vals.nodes).1 with
          ⟨hc, hsz'⟩ | hc <;> rw [hc]
        · by_cases hu : s.unknown = true
          · rw [insertMany_unknown hu] at hsz' ⊢
            exact ⟨Or.inl hu, hsz'⟩
          · rw [insertMany_precise (Bool.of_not_eq_true hu)] at hsz' ⊢
            rcases hsub with hsub | hsub
            · exact absurd hsub hu
            · exact ⟨Or.inr (hsub.trans Finset.subset_union_left), hsz'⟩
        · exact ⟨Or.inl rfl, Or.inr (by simp)⟩
      · right
        rw [mapFind_mapSet_ne _ _ _ _ hkd]
        exact ⟨s, hf, hsub, hsz⟩

theorem mergeList_preserves_stable {env : NodeInfo} {noUpd : Option (List DefSite)}
    {su : Bool} {mss : Nat} (l : List (DefSite × RDNodesSet)) :
    ∀ (m : Entries) (ch : Bool) {k : DefSite} {v : RDNodesSet},
      stable env noUpd su mss m k v →
      stable env noUpd su mss (mergeList env noUpd su mss false m l ch).1 k v := by
  induction l with
  | nil => intro m ch k v h; exact h
  | cons e rest ih =>
    intro m ch k v h
    exact ih _ _ (mergeOne_preserves_stable h)

theorem mergeList_establishes_stable {env : NodeInfo} {noUpd : Option (List DefSite)}
    {su : Bool} {mss : Nat} (l : List (DefSite × RDNodesSet)) :
    ∀ (m : Entries) (ch : Bool) (e : DefSite × RDNodesSet), e ∈ l →
      stable env noUpd su mss (mergeList env noUpd su mss false m l ch).1 e.1 e.2 := by
  induction l with
  | nil => intro m ch e he; simp at he
  | cons x rest ih =>
    intro m ch e he
    rcases List.mem_cons.mp he with rfl | he
    · exact mergeList_preserves_stable rest _ _ mergeOne_establishes_stable
    · exact ih _ _ e he

theorem mergeOne_of_stable {env : NodeInfo} {m : Entries} {ds : DefSite} {vals : RDNodesSet}
    {noUpd : Option (List DefSite)} {su : Bool} {mss : Nat}
    (hs : sortedEntries m) (h : stable env noUpd su mss m ds vals) :
    mergeOne env m ds vals noUpd su mss false = (m, false) := by
  rcases h with h | ⟨s, hf, hsub, hsz⟩
  · exact mergeOne_skip h
  · cases hk : killOutcome env ds noUpd su with
    | none => exact mergeOne_skip hk
    | some b =>
      rw [mergeOne_nofold hk]
      have hbase : mapFindD m ds = s := by simp [mapFindD, hf]
      rw [hbase]
      by_cases hu : s.unknown = true
      · rw [insertMany_unknown hu, capSet_eq_self hsz, mapSet_eq_self hs hf]
      · rcases hsub with hsub | hsub
        · exact absurd hsub hu
        · rw [insertMany_precise (Bool.of_not_eq_true hu)]
          have hun : s.nodes ∪ vals.nodes = s.nodes := Finset.union_eq_left.mpr hsub
          have hset : (⟨s.nodes ∪ vals.nodes, false⟩ : RDNodesSet) = s := by
            rw [hun]
            cases s with
            | mk n u =>
              simp at hu
              simp [hu]
          rw [hset, capSet_eq_self hsz, mapSet_eq_self hs hf]
          simp [hsub]

theorem mergeList_fixed {env : NodeInfo} {noUpd : Option (List DefSite)} {su : Bool}
    {mss : Nat} (l : List (DefSite × RDNodesSet)) :
    ∀ (m : Entries) (ch : Bool),
      (∀ e ∈ l, mergeOne env m e.1 e.2 noUpd su mss false = (m, false)) →
      mergeList env noUpd su mss false m l ch = (m, ch) := by
  induction l with
  | nil => intro m ch _; rfl
  | cons e rest ih =>
    intro m ch h
    have he := h e (List.mem_cons_self e rest)
    simp only [mergeList, he, Bool.or_false]
    exact ih _ _ (fun x hx => h x (List.mem_cons_of_mem _ hx))

/-! ### Kill-set scan lemmas -/

theorem killsFor_mem {ks : List DefSite} {t : RDNode} {k : DefSite} :
    k ∈ killsFor ks t ↔ k ∈ ks ∧ k.target = t := by
  simp [killsFor]

theorem killsFor_sorted {ks : List DefSite} (h : sortedKills ks) (t : RDNode) :
    (killsFor ks t).Pairwise (fun a b => DefSite.ltb a b = true) :=
  h.filter _

theorem overwritesWholeMemory_iff {env : NodeInfo} {ds : DefSite} {ks : List DefSite} :
    overwritesWholeMemory env ds ks = true ↔
      ∃ k ∈ ks, k.target = ds.target ∧ k.offset.offset = 0 ∧
        env.size ds.target ≤ k.len.offset := by
  simp only [overwritesWholeMemory, List.any_eq_true, Bool.and_eq_true, decide_eq_true_eq]
  constructor
  · rintro ⟨k, hk, h0, hl⟩
    rcases killsFor_mem.mp hk with ⟨hks, ht⟩
    exact ⟨k, hks, ht, h0, hl⟩
  · rintro ⟨k, hks, ht, h0, hl⟩
    exact ⟨k, killsFor_mem.mpr ⟨hks, ht⟩, h0, hl⟩

theorem no_cover_of_unknown_first {ds k : DefSite} {rest : List DefSite}
    (hds : ds.offset.offset < UNKNOWN_OFFSET)
    (hwf : ∀ x ∈ k :: rest, x.offset.offset < U64MOD)
    (htgt : ∀ x ∈ k :: rest, x.target = ds.target)
    (hsorted : (k :: rest).Pairwise (fun a b => DefSite.ltb a b = true))
    (hu : k.offset.isUnknown = true) :
    ∀ x ∈ k :: rest, covers x ds = false := by
  have hku : k.offset.offset = UNKNOWN_OFFSET := by
    simpa [Offset.isUnknown] using hu
  intro x hx
  rcases List.mem_cons.mp hx with rfl | hx
  · simp only [covers, Bool.and_eq_false_iff]
    left
    simp only [decide_eq_false_iff_not, not_le, hku]
    exact hds
  · rcases List.pairwise_cons.mp hsorted with ⟨hk, _⟩
    have hlt := hk x hx
    rw [DefSite.ltb_iff] at hlt
    have hts : k.target = x.target := by
      rw [htgt k (List.mem_cons_self _ _), htgt x (List.mem_cons_of_mem _ hx)]
    have hxwf : x.offset.offset < U64MOD := hwf x (List.mem_cons_of_mem _ hx)
    rcases hlt with hlt | ⟨_, hlt⟩
    · exact absurd hts (Nat.ne_of_lt hlt)
    · rcases hlt with hlt | ⟨heq, _⟩
      · exfalso
        rw [hku] at hlt
        unfold UNKNOWN_OFFSET at hlt
        omega
      · simp only [covers, Bool.and_eq_false_iff]
        left
        simp only [decide_eq_false_iff_not, not_le, ← heq, hku]
        exact hds

theorem scanKills_skip_iff {ds : DefSite} {l : List DefSite}
    (hds : ds.offset.offset < UNKNOWN_OFFSET)
    (hwf : ∀ x ∈ l, x.offset.offset < U64MOD)
    (htgt : ∀ x ∈ l, x.target = ds.target)
    (hsorted : l.Pairwise (fun a b => DefSite.ltb a b = true)) :
    scanKills ds l = .skip ↔ ∃ k ∈ l, covers k ds = true := by
  induction l with
  | nil => simp [scanKills]
  | cons k rest ih =>
    by_cases hu : k.offset.isUnknown = true
    · simp only [scanKills, if_pos hu]
      constructor
      · intro h
        cases h
      · rintro ⟨x, hx, hc⟩
        rw [no_cover_of_unknown_first hds hwf htgt hsorted hu x hx] at hc
        cases hc
    · by_cases hc : covers k ds = true
      · simp only [scanKills, if_neg hu, if_pos hc]
        exact ⟨fun _ => ⟨k, List.mem_cons_self _ _, hc⟩, fun _ => trivial⟩
      · simp only [scanKills, if_neg hu, if_neg hc]
        rw [ih (fun x hx => hwf x (List.mem_cons_of_mem _ hx))
          (fun x hx => htgt x (List.mem_cons_of_mem _ hx))
          (List.pairwise_cons.mp hsorted).2]
        constructor
        · rintro ⟨x, hx, hxc⟩
          exact ⟨x, List.mem_cons_of_mem _ hx, hxc⟩
        · rintro ⟨x, hx, hxc⟩
          rcases List.mem_cons.mp hx with rfl | hx
          · exact absurd hxc hc
          · exact ⟨x, hx, hxc⟩

theorem scanKills_markUnknown {ds : DefSite} {l : List DefSite}
    (hne : ∃ k ∈ l, k.offset.isUnknown = true)
    (hnc : ∀ k ∈ l, covers k ds = false) :
    scanKills ds l = .markUnknown := by
  induction l with
  | nil => simp at hne
  | cons k rest ih =>
    by_cases hu : k.offset.isUnknown = true
    · simp [scanKills, hu]
    · have hc : covers k ds = false := hnc k (List.mem_cons_self _ _)
      simp only [scanKills, if_neg hu, hc, Bool.false_eq_true, if_false]
      rcases hne with ⟨x, hx, hxu⟩
      rcases List.mem_cons.mp hx with rfl | hx
      · exact absurd hxu hu
      · exact ih ⟨x, hx, hxu⟩ (fun y hy => hnc y (List.mem_cons_of_mem _ hy))

/-! ### `killOutcome` reduction lemmas -/

theorem killOutcome_no_killset (env : NodeInfo) (ds : DefSite) (su : Bool) :
    killOutcome env ds none su = some ds.offset.isUnknown := rfl

theorem killOutcome_concrete {env : NodeInfo} {ds : DefSite} {ks : List DefSite} {su : Bool}
    (h : ds.offset.isUnknown = false) (hdyn : env.isDynAlloc ds.target = false) :
    killOutcome env ds (some ks) su =
      match scanKills ds (killsFor ks ds.target) with
      | .skip => none
      | .markUnknown => some true
      | .keep => some false := by
  unfold killOutcome
  simp [h, hdyn]

theorem killOutcome_unknown_su {env : NodeInfo} {ds : DefSite} {ks : List DefSite}
    (hu : ds.offset.isUnknown = true) (hsz : 0 < env.size ds.target) :
    killOutcome env ds (some ks) true =
      (if overwritesWholeMemory env ds ks then none else some true) := by
  unfold killOutcome
  simp [hu, hsz]

theorem killOutcome_some_of_unknown {env : NodeInfo} {ds : DefSite}
    {noUpd : Option (List DefSite)} {su : Bool} (hu : ds.offset.isUnknown = true)
    (h : killOutcome env ds noUpd su ≠ none) :
    killOutcome env ds noUpd su = some true := by
  unfold killOutcome at h ⊢
  cases noUpd with
  | none => simp [hu]
  | some ks =>
    simp only [hu] at h ⊢
    by_cases h1 : (su && true && decide (0 < env.size ds.target)) = true
    · simp only [if_pos h1] at h ⊢
      by_cases h2 : overwritesWholeMemory env ds ks = true
      · simp [h2] at h
      · simp [h2]
    · simp only [if_neg h1] at h ⊢
      by_cases h3 : (!(env.isDynAlloc ds.target)) = true
      · simp only [if_pos h3] at h ⊢
        cases hs : scanKills ds (killsFor ks ds.target) with
        | skip => simp [hs] at h
        | markUnknown => simp [hs]
        | keep => simp [hs]
      · simp [h3]

/-! ### Folding / union membership lemmas -/

theorem mem_foldr_union {l : Entries} {init : Finset RDNode} {n : RDNode} :
    n ∈ l.foldr (fun e acc => e.2.nodes ∪ acc) init ↔
      n ∈ init ∨ ∃ e ∈ l, n ∈ e.2.nodes := by
  induction l with
  | nil => simp
  | cons e rest ih =>
    simp only [List.foldr_cons, Finset.mem_union, ih, List.mem_cons]
    constructor
    · rintro (h | h | ⟨x, hx, hn⟩)
      · exact Or.inr ⟨e, Or.inl rfl, h⟩
      · exact Or.inl h
      · exact Or.inr ⟨x, Or.inr hx, hn⟩
    · rintro (h | ⟨x, rfl | hx, hn⟩)
      · exact Or.inr (Or.inl h)
      · exact Or.inl hn
      · exact Or.inr (Or.inr ⟨x, hx, hn⟩)

theorem mem_foldr_union_if {l : Entries} {p : DefSite → Bool} {init : Finset RDNode}
    {n : RDNode} :
    n ∈ l.foldr (fun e acc => if p e.1 then e.2.nodes ∪ acc else acc) init ↔
      n ∈ init ∨ ∃ e ∈ l, p e.1 = true ∧ n ∈ e.2.nodes := by
  induction l with
  | nil => simp
  | cons e rest ih =>
    by_cases hp : p e.1 = true
    · simp only [List.foldr_cons, if_pos hp, Finset.mem_union, ih, List.mem_cons]
      constructor
      · rintro (h | h | ⟨x, hx, hxp, hn⟩)
        · exact Or.inr ⟨e, Or.inl rfl, hp, h⟩
        · exact Or.inl h
        · exact Or.inr ⟨x, Or.inr hx, hxp, hn⟩
      · rintro (h | ⟨x, rfl | hx, hxp, hn⟩)
        · exact Or.inr (Or.inl h)
        · exact Or.inl hn
        · exact Or.inr (Or.inr ⟨x, hx, hxp, hn⟩)
    · simp only [List.foldr_cons, if_neg hp, ih, List.mem_cons]
      constructor
      · rintro (h | ⟨x, hx, hxp, hn⟩)
        · exact Or.inl h
        · exact Or.inr ⟨x, Or.inr hx, hxp, hn⟩
      · rintro (h | ⟨x, rfl | hx, hxp, hn⟩)
        · exact Or.inl h
        · exact absurd hxp hp
        · exact Or.inr ⟨x, hx, hxp, hn⟩

theorem mem_foldConcretes {m : Entries} {t : RDNode} {ukey : DefSite} {n : RDNode} :
    n ∈ foldConcretes m t ukey ↔
      ∃ e ∈ m, e.1.target = t ∧ e.1 ≠ ukey ∧ n ∈ e.2.nodes := by
  unfold foldConcretes
  rw [mem_foldr_union]
  simp only [Finset.not_mem_empty, false_or, List.mem_filter, Bool.and_eq_true,
    beq_iff_eq, Bool.not_eq_true']
  constructor
  · rintro ⟨e, ⟨he, ht, hne⟩, hn⟩
    exact ⟨e, he, ht, by simpa using hne, hn⟩
  · rintro ⟨e, he, ht, hne, hn⟩
    exact ⟨e, ⟨he, ht, by simpa using hne⟩, hn⟩

theorem entriesFor_mapSet_single {m : Entries} {T : RDNode} {k : DefSite} {v : RDNodesSet}
    (hm : ∀ e ∈ m, e.1.target ≠ T) (hk : k.target = T) :
    entriesFor (mapSet m k v) T = [(k, v)] := by
  induction m with
  | nil => simp [mapSet, entriesFor, hk]
  | cons e t ih =>
    have he : e.1.target ≠ T := hm e (List.mem_cons_self _ _)
    have hek : e.1 ≠ k := fun h => he (h ▸ hk)
    by_cases h1 : DefSite.ltb k e.1 = true
    · simp only [mapSet, if_pos h1, entriesFor, List.filter_cons]
      have h2 : ((k, v).1.target == T) = true := by simpa using hk
      rw [if_pos h2]
      congr 1
      have h3 : ¬ ((e.1.target == T) = true) := by simpa using he
      rw [if_neg h3]
      rw [List.filter_eq_nil_iff]
      intro a ha
      simpa using hm a (List.mem_cons_of_mem _ ha)
    · simp only [mapSet, if_neg h1, if_neg hek, entriesFor, List.filter_cons]
      have h2 : ¬ ((e.1.target == T) = true) := by simpa using he
      rw [if_neg h2]
      exact ih (fun x hx => hm x (List.mem_cons_of_mem _ hx))

/-! ### The structural-copy lemma (merge into an accumulator of smaller keys) -/

theorem mergeList_copy {env : NodeInfo} {su : Bool} {mss : Nat}
    (l : List (DefSite × RDNodesSet)) :
    ∀ (m : Entries) (ch : Bool),
      (∀ e ∈ m, ∀ f ∈ l, DefSite.ltb e.1 f.1 = true) →
      sortedEntries l →
      (∀ e ∈ l, e.2.unknown = false) →
      (∀ e ∈ l, e.2.nodes.card ≤ mss) →
      mergeList env none su mss false m l ch =
        (m ++ l, ch || l.any (fun e => decide (e.2.nodes ≠ ∅))) := by
  induction l with
  | nil => intro m ch _ _ _ _; simp [mergeList]
  | cons e rest ih =>
    intro m ch hlt hsort hprec hcard
    have hfind : mapFind m e.1 = none := by
      apply mapFind_eq_none
      intro x hx
      exact DefSite.ne_of_ltb (hlt x hx e (List.mem_cons_self _ _))
    have hbase : mapFindD m e.1 = RDNodesSet.emptySet := by
      simp [mapFindD, hfind]
    have hins : (mapFindD m e.1).insertMany e.2.nodes =
        (⟨e.2.nodes, false⟩, decide (¬ e.2.nodes ⊆ ∅)) := by
      rw [hbase, insertMany_precise rfl]
      simp [RDNodesSet.emptySet]
    have hval : (⟨e.2.nodes, false⟩ : RDNodesSet) = e.2 :=
      RDNodesSet.eta_precise (hprec e (List.mem_cons_self _ _))
    have hcap : capSet env e.1.target mss e.2 = e.2 :=
      capSet_eq_self (Or.inr (hcard e (List.mem_cons_self _ _)))
    simp only [mergeList, mergeOne_nofold (killOutcome_no_killset env e.1 su), hins, hval,
      hcap]
    rw [mapSet_append e.1 e.2 (fun x hx => hlt x hx e (List.mem_cons_self _ _))]
    rw [ih (m ++ [(e.1, e.2)]) _ ?_ (List.pairwise_cons.mp hsort).2
      (fun x hx => hprec x (List.mem_cons_of_mem _ hx))
      (fun x hx => hcard x (List.mem_cons_of_mem _ hx))]
    · have hd : decide (¬ e.2.nodes ⊆ ∅) = decide (e.2.nodes ≠ ∅) :=
        decide_eq_decide.mpr (by rw [Finset.subset_empty])
      simp only [List.append_assoc, List.singleton_append, List.any_cons, hd, Bool.or_assoc,
        Prod.mk.eta]
    · intro x hx f hf
      rcases List.mem_append.mp hx with hx | hx
      · exact hlt x hx f (List.mem_cons_of_mem _ hf)
      · simp only [List.mem_singleton] at hx
        subst hx
        exact (List.pairwise_cons.mp hsort).1 f hf

/-! ### Conservative-membership helpers -/

theorem holds_of_unknown {s : RDNodesSet} (h : s.unknown = true) (n : RDNode) :
    s.holds n = true := by
  simp [RDNodesSet.holds, h]

theorem insertMany_holds {s : RDNodesSet} {ns : Finset RDNode} {n : RDNode} (h : n ∈ ns) :
    ((s.insertMany ns).1).holds n = true := by
  by_cases hu : s.unknown = true
  · rw [insertMany_unknown hu]
    exact holds_of_unknown hu n
  · rw [insertMany_precise (Bool.of_not_eq_true hu)]
    simp [RDNodesSet.holds, Finset.mem_union, h]

theorem insertMany_holds_mono {s : RDNodesSet} {ns : Finset RDNode} {n : RDNode}
    (h : s.holds n = true) : ((s.insertMany ns).1).holds n = true := by
  by_cases hu : s.unknown = true
  · rw [insertMany_unknown hu]
    exact h
  · rw [insertMany_precise (Bool.of_not_eq_true hu)]
    simp only [RDNodesSet.holds, Bool.or_eq_true, decide_eq_true_eq] at h ⊢
    rcases h with h | h
    · exact absurd h hu
    · exact Or.inr (Finset.mem_union_left _ h)

theorem capSet_holds {env : NodeInfo} {t : RDNode} {mss : Nat} {s : RDNodesSet} {n : RDNode}
    (h : s.holds n = true) : (capSet env t mss s).holds n = true := by
  rcases capSet_spec env t mss s with ⟨hc, _⟩ | hc <;> rw [hc]
  · exact h
  · exact holds_of_unknown rfl n

/-- A non-skipped incoming pair is merged in full: after the iteration some
entry for the target conservatively holds every incoming node. -/
theorem mergeOne_merges {env : NodeInfo} {m : Entries} {ds : DefSite} {vals : RDNodesSet}
    {noUpd : Option (List DefSite)} {su : Bool} {mss : Nat} {fold : Bool} {b : Bool}
    (hk : killOutcome env ds noUpd su = some b) :
    ∀ n ∈ vals.nodes, ∃ e ∈ (mergeOne env m ds vals noUpd su mss fold).1,
      e.1.target = ds.target ∧ e.2.holds n = true := by
  intro n hn
  unfold mergeOne
  rw [hk]
  by_cases hf : (fold && b) = true
  · simp only [hf, if_pos]
    refine ⟨_, mapSet_mem_self _ _ _, rfl, ?_⟩
    exact capSet_holds (insertMany_holds hn)
  · simp only [hf, Bool.false_eq_true, if_false]
    refine ⟨_, mapSet_mem_self _ _ _, rfl, ?_⟩
    exact capSet_holds (insertMany_holds hn)

/-! ### Claim C1 -/

/-- C1 (counterexample to the claim as stated): a dynamically-allocated
target (`isDynAlloc = true`, size 4) with an unknown-offset incoming site
IS skipped by `RDMap::merge` when `killUnknownWithFullOverwrite` is enabled
and the kill set contains a whole-memory overwrite `(0, 4)`: the merge
leaves the empty map empty, contradicting "no kill-set entry ever causes
such a site to be skipped". -/
theorem c1_counterexample :
    RDMap.merge ⟨fun _ => 4, fun _ => true, fun _ => false⟩ ⟨[]⟩
      ⟨[(⟨0, ⟨UNKNOWN_OFFSET⟩, ⟨UNKNOWN_OFFSET⟩⟩, ⟨{1}, false⟩)]⟩ false
      (some [⟨0, ⟨0⟩, ⟨4⟩⟩]) true 100 false = (⟨[]⟩, false) := by
  decide

/-- C1 (amended): an incoming site whose target is dynamically allocated is
never skipped by the kill set — processing it is identical to processing it
with no kill set at all — EXCEPT through the unknown-offset whole-memory
branch, i.e. unless the site's offset is unknown, `killUnknownWithFullOverwrite`
is enabled, the target's size is known (> 0), and some kill entry overwrites
the whole memory. -/
theorem c1_dyn_alloc_weak_merge (env : NodeInfo) (m : Entries) (ds : DefSite)
    (vals : RDNodesSet) (ks : List DefSite) (su : Bool) (mss : Nat) (fold : Bool)
    (hdyn : env.isDynAlloc ds.target = true)
    (hnot : ¬ (su = true ∧ ds.offset.isUnknown = true ∧ 0 < env.size ds.target ∧
      overwritesWholeMemory env ds ks = true)) :
    mergeOne env m ds vals (some ks) su mss fold =
      mergeOne env m ds vals none su mss fold := by
  suffices h : killOutcome env ds (some ks) su = killOutcome env ds none su by
    unfold mergeOne
    rw [h]
  rw [killOutcome_no_killset]
  unfold killOutcome
  by_cases h1 : (su && ds.offset.isUnknown && decide (0 < env.size ds.target)) = true
  · have how : overwritesWholeMemory env ds ks = false := by
      rw [Bool.and_eq_true, Bool.and_eq_true] at h1
      obtain ⟨⟨h4, h5⟩, h3⟩ := h1
      cases hw : overwritesWholeMemory env ds ks
      · rfl
      · exact absurd ⟨h4, h5, of_decide_eq_true h3, hw⟩ hnot
    simp [h1, how]
  · simp [h1, hdyn]

/-- C1 witness: instantiating the amended theorem at a concrete
dynamically-allocated target whose kill set does not fully overwrite it. -/
theorem c1_dyn_alloc_weak_merge_witness :
    mergeOne ⟨fun _ => 4, fun _ => true, fun _ => false⟩ []
      ⟨0, ⟨0⟩, ⟨4⟩⟩ ⟨{1}, false⟩ (some [⟨0, ⟨0⟩, ⟨4⟩⟩]) true 100 false =
    mergeOne ⟨fun _ => 4, fun _ => true, fun _ => false⟩ []
      ⟨0, ⟨0⟩, ⟨4⟩⟩ ⟨{1}, false⟩ none true 100 false :=
  c1_dyn_alloc_weak_merge ⟨fun _ => 4, fun _ => true, fun _ => false⟩ []
    ⟨0, ⟨0⟩, ⟨4⟩⟩ ⟨{1}, false⟩ [⟨0, ⟨0⟩, ⟨4⟩⟩] true 100 false
    (by decide) (by decide)

/-! ### Claim C3 -/

/-- C3: with a kill set and `killUnknownWithFullOverwrite` enabled, an
incoming site with unknown offset whose target has known size > 0 is skipped
(contributes nothing) iff some kill entry for the same target starts at
offset 0 with length at least the target's size; if no kill entry satisfies
that, the site is merged. -/
theorem c3_unknown_full_overwrite_kill (env : NodeInfo) (m : Entries) (ds : DefSite)
    (vals : RDNodesSet) (ks : List DefSite) (mss : Nat) (fold : Bool)
    (hu : ds.offset.isUnknown = true) (hsz : 0 < env.size ds.target) :
    (killOutcome env ds (some ks) true = none ↔
      ∃ k ∈ ks, k.target = ds.target ∧ k.offset.offset = 0 ∧
        env.size ds.target ≤ k.len.offset) ∧
    (killOutcome env ds (some ks) true = none →
      mergeOne env m ds vals (some ks) true mss fold = (m, false)) ∧
    (killOutcome env ds (some ks) true ≠ none →
      ∀ n ∈ vals.nodes, ∃ e ∈ (mergeOne env m ds vals (some ks) true mss fold).1,
        e.1.target = ds.target ∧ e.2.holds n = true) := by
  have hiff : killOutcome env ds (some ks) true = none ↔
      overwritesWholeMemory env ds ks = true := by
    rw [killOutcome_unknown_su hu hsz]
    by_cases how : overwritesWholeMemory env ds ks = true
    · simp [how]
    · simp [how]
  refine ⟨hiff.trans overwritesWholeMemory_iff, fun h => mergeOne_skip h, fun h => ?_⟩
  exact mergeOne_merges (killOutcome_some_of_unknown hu h)

/-- C3 witness: a concrete unknown-offset site killed by a whole-memory
overwrite entry `(0, 4)` over a size-4 target. -/
theorem c3_unknown_full_overwrite_kill_witness :
    (killOutcome ⟨fun _ => 4, fun _ => false, fun _ => false⟩ ⟨0, ⟨UNKNOWN_OFFSET⟩, ⟨UNKNOWN_OFFSET⟩⟩
        (some [⟨0, ⟨0⟩, ⟨4⟩⟩]) true = none ↔
      ∃ k ∈ [(⟨0, ⟨0⟩, ⟨4⟩⟩ : DefSite)], k.target = 0 ∧ k.offset.offset = 0 ∧ 4 ≤ k.len.offset) ∧
    (killOutcome ⟨fun _ => 4, fun _ => false, fun _ => false⟩ ⟨0, ⟨UNKNOWN_OFFSET⟩, ⟨UNKNOWN_OFFSET⟩⟩
        (some [⟨0, ⟨0⟩, ⟨4⟩⟩]) true = none →
      mergeOne ⟨fun _ => 4, fun _ => false, fun _ => false⟩ []
        ⟨0, ⟨UNKNOWN_OFFSET⟩, ⟨UNKNOWN_OFFSET⟩⟩ ⟨{1}, false⟩
        (some [⟨0, ⟨0⟩, ⟨4⟩⟩]) true 100 false = ([], false)) :=
  have h := c3_unknown_full_overwrite_kill ⟨fun _ => 4, fun _ => false, fun _ => false⟩ []
    ⟨0, ⟨UNKNOWN_OFFSET⟩, ⟨UNKNOWN_OFFSET⟩⟩ ⟨{1}, false⟩ [⟨0, ⟨0⟩, ⟨4⟩⟩] 100 false
    (by decide) (by decide)
  ⟨h.1, h.2.1⟩

/-! ### Claim C2 -/

theorem covers_iff {k ds : DefSite} : covers k ds = true ↔
    k.offset.offset ≤ ds.offset.offset ∧
      u64add ds.offset.offset ds.len.offset ≤ u64add k.offset.offset k.len.offset := by
  simp [covers]

/-- C2 (counterexample to the claim as stated): the kill set
`{(T,0,4), (T,UNKNOWN,UNKNOWN)}` contains an unknown-offset entry for the
target, yet the incoming concrete site `(T,0,4)` is NOT "kept and merged":
the covering entry `(T,0,4)` sorts before the unknown entry, so the site is
skipped and the map stays empty. -/
theorem c2_counterexample :
    RDMap.merge ⟨fun _ => 4, fun _ => false, fun _ => false⟩ ⟨[]⟩
      ⟨[(⟨0, ⟨0⟩, ⟨4⟩⟩, ⟨{1}, false⟩)]⟩ false
      (some [⟨0, ⟨0⟩, ⟨4⟩⟩, ⟨0, ⟨UNKNOWN_OFFSET⟩, ⟨UNKNOWN_OFFSET⟩⟩]) false 100 false
      = (⟨[]⟩, false) ∧
    (⟨0, ⟨UNKNOWN_OFFSET⟩, ⟨UNKNOWN_OFFSET⟩⟩ : DefSite).offset.isUnknown = true := by
  decide

/-- C2 (amended): a non-dynamically-allocated incoming site with concrete
offset is skipped iff some kill entry for the same target covers its byte
range (`koff <= off` and `off + len <= koff + klen` in `uint64_t`
arithmetic); a skipped site contributes nothing; if a kill entry for the
target has unknown offset and NO kill entry covers the range, the site is
kept (reclassified unknown) ; every non-skipped site is merged in full. -/
theorem c2_concrete_kill_covering (env : NodeInfo) (m : Entries) (ds : DefSite)
    (vals : RDNodesSet) (ks : List DefSite) (su : Bool) (mss : Nat) (fold : Bool)
    (hconc : ds.offset.isUnknown = false)
    (hdyn : env.isDynAlloc ds.target = false)
    (hwfds : ds.offset.offset < U64MOD)
    (hwfks : ∀ k ∈ ks, k.offset.offset < U64MOD)
    (hsort : sortedKills ks) :
    (killOutcome env ds (some ks) su = none ↔
      ∃ k ∈ ks, k.target = ds.target ∧ k.offset.offset ≤ ds.offset.offset ∧
        u64add ds.offset.offset ds.len.offset ≤ u64add k.offset.offset k.len.offset) ∧
    (killOutcome env ds (some ks) su = none →
      mergeOne env m ds vals (some ks) su mss fold = (m, false)) ∧
    ((∃ k ∈ ks, k.target = ds.target ∧ k.offset.isUnknown = true) →
      ¬ (∃ k ∈ ks, k.target = ds.target ∧ k.offset.offset ≤ ds.offset.offset ∧
        u64add ds.offset.offset ds.len.offset ≤ u64add k.offset.offset k.len.offset) →
      killOutcome env ds (some ks) su = some true) ∧
    (∀ b, killOutcome env ds (some ks) su = some b →
      ∀ n ∈ vals.nodes, ∃ e ∈ (mergeOne env m ds vals (some ks) su mss fold).1,
        e.1.target = ds.target ∧ e.2.holds n = true) := by
  have hne : ds.offset.offset ≠ UNKNOWN_OFFSET := by
    simpa [Offset.isUnknown] using hconc
  have hds' : ds.offset.offset < UNKNOWN_OFFSET := by
    unfold UNKNOWN_OFFSET
    exact lt_of_le_of_ne (Nat.le_pred_of_lt hwfds) hne
  have hfw : ∀ x ∈ killsFor ks ds.target, x.offset.offset < U64MOD :=
    fun x hx => hwfks x (killsFor_mem.mp hx).1
  have hft : ∀ x ∈ killsFor ks ds.target, x.target = ds.target :=
    fun x hx => (killsFor_mem.mp hx).2
  have hskip : scanKills ds (killsFor ks ds.target) = .skip ↔
      ∃ k ∈ ks, k.target = ds.target ∧ covers k ds = true := by
    rw [scanKills_skip_iff hds' hfw hft (killsFor_sorted hsort ds.target)]
    constructor
    · rintro ⟨k, hk, hc⟩
      rcases killsFor_mem.mp hk with ⟨h1, h2⟩
      exact ⟨k, h1, h2, hc⟩
    · rintro ⟨k, h1, h2, hc⟩
      exact ⟨k, killsFor_mem.mpr ⟨h1, h2⟩, hc⟩
  have hcov : (∃ k ∈ ks, k.target = ds.target ∧ covers k ds = true) ↔
      ∃ k ∈ ks, k.target = ds.target ∧ k.offset.offset ≤ ds.offset.offset ∧
        u64add ds.offset.offset ds.len.offset ≤ u64add k.offset.offset k.len.offset := by
    constructor
    · rintro ⟨k, h1, h2, hc⟩
      exact ⟨k, h1, h2, covers_iff.mp hc⟩
    · rintro ⟨k, h1, h2, hc⟩
      exact ⟨k, h1, h2, covers_iff.mpr hc⟩
  have hko := @killOutcome_concrete env ds ks su hconc hdyn
  refine ⟨?_, fun h => mergeOne_skip h, ?_, fun b hb => mergeOne_merges hb⟩
  · rw [hko]
    cases hscan : scanKills ds (killsFor ks ds.target) with
    | skip =>
      simp only []
      exact ⟨fun _ => hcov.mp (hskip.mp hscan), fun _ => trivial⟩
    | markUnknown =>
      simp only []
      constructor
      · intro h
        cases h
      · intro h
        have hsk := hskip.mpr (hcov.mpr h)
        rw [hscan] at hsk
        cases hsk
    | keep =>
      simp only []
      constructor
      · intro h
        cases h
      · intro h
        have hsk := hskip.mpr (hcov.mpr h)
        rw [hscan] at hsk
        cases hsk
  · intro hexu hnc
    rw [hko]
    have hm : scanKills ds (killsFor ks ds.target) = .markUnknown := by
      apply scanKills_markUnknown
      · rcases hexu with ⟨k, h1, h2, h3⟩
        exact ⟨k, killsFor_mem.mpr ⟨h1, h2⟩, h3⟩
      · intro k hk
        rcases killsFor_mem.mp hk with ⟨h1, h2⟩
        cases hc : covers k ds with
        | false => rfl
        | true => exact absurd (hcov.mp ⟨k, h1, h2, hc⟩) hnc
    rw [hm]

/-- C2 witness: the skip-iff-covering equivalence at a concrete regular
target with kill entry `(0, 4)` over the incoming site `(2, 1)`. -/
theorem c2_concrete_kill_covering_witness :
    killOutcome ⟨fun _ => 4, fun _ => false, fun _ => false⟩ ⟨0, ⟨2⟩, ⟨1⟩⟩
        (some [⟨0, ⟨0⟩, ⟨4⟩⟩]) false = none ↔
      ∃ k ∈ [(⟨0, ⟨0⟩, ⟨4⟩⟩ : DefSite)], k.target = 0 ∧ k.offset.offset ≤ 2 ∧
        u64add 2 1 ≤ u64add k.offset.offset k.len.offset :=
  (c2_concrete_kill_covering ⟨fun _ => 4, fun _ => false, fun _ => false⟩ []
    ⟨0, ⟨2⟩, ⟨1⟩⟩ ⟨{1}, false⟩ [⟨0, ⟨0⟩, ⟨4⟩⟩] false 100 false
    (by decide) (by decide) (by decide) (by decide)
    (by simp [sortedKills])).1

/-! ### Reduction equations for `RDMap.merge` and `RDMap.get` -/

theorem RDMap.merge_eq (env : NodeInfo) (m oth : RDMap) (noUpd : Option (List DefSite))
    (su : Bool) (mss : Nat) (fold : Bool) :
    RDMap.merge env m oth false noUpd su mss fold =
      (⟨(mergeList env noUpd su mss fold m.defs oth.defs false).1⟩,
        (mergeList env noUpd su mss fold m.defs oth.defs false).2) := by
  simp [RDMap.merge]

theorem RDMap.get_unknown (m : RDMap) (ds : DefSite) (ret : Finset RDNode)
    (h : ds.offset.isUnknown = true) :
    m.get ds ret =
      ((entriesFor m.defs ds.target).foldr (fun e acc => e.2.nodes ∪ acc) ret,
        ((entriesFor m.defs ds.target).foldr (fun e acc => e.2.nodes ∪ acc) ret).card) := by
  unfold RDMap.get
  simp [h]

theorem RDMap.get_concrete (m : RDMap) (ds : DefSite) (ret : Finset RDNode)
    (h : ds.offset.isUnknown = false) :
    m.get ds ret =
      ((entriesFor m.defs ds.target).foldr
          (fun e acc => if getMatches ds e.1 then e.2.nodes ∪ acc else acc) ret,
        ((entriesFor m.defs ds.target).foldr
          (fun e acc => if getMatches ds e.1 then e.2.nodes ∪ acc else acc) ret).card) := by
  unfold RDMap.get
  simp [h]

theorem subset_foldr_union (l : Entries) (init : Finset RDNode) :
    init ⊆ l.foldr (fun e acc => e.2.nodes ∪ acc) init := by
  induction l with
  | nil => exact Finset.Subset.refl _
  | cons e t ih => exact ih.trans Finset.subset_union_right

theorem subset_foldr_union_if (l : Entries) (p : DefSite → Bool) (init : Finset RDNode) :
    init ⊆ l.foldr (fun e acc => if p e.1 then e.2.nodes ∪ acc else acc) init := by
  induction l with
  | nil => exact Finset.Subset.refl _
  | cons e t ih =>
    by_cases hp : p e.1 = true
    · simp only [List.foldr_cons, if_pos hp]
      exact ih.trans Finset.subset_union_right
    · simp only [List.foldr_cons, if_neg hp]
      exact ih

/-! ### Claim C4 -/

/-- C4: with `foldUnknown = true`, when an unknown-offset incoming site is
processed (not skipped by the kill set), afterwards the map holds exactly one
entry for the target — keyed at `(UNKNOWN_OFFSET, UNKNOWN_OFFSET)` — whose
node set conservatively holds every node of every entry previously stored
for that target together with every incoming node; every concrete-offset
entry for the target has been deleted. -/
theorem c4_fold_unknown_single_entry (env : NodeInfo) (m : Entries) (ds : DefSite)
    (vals : RDNodesSet) (noUpd : Option (List DefSite)) (su : Bool) (mss : Nat)
    (hs : sortedEntries m) (hu : ds.offset.isUnknown = true)
    (hk : killOutcome env ds noUpd su ≠ none) :
    ∃ s, entriesFor (mergeOne env m ds vals noUpd su mss true).1 ds.target =
        [(⟨ds.target, ⟨UNKNOWN_OFFSET⟩, ⟨UNKNOWN_OFFSET⟩⟩, s)] ∧
      ∀ n, ((∃ e ∈ m, e.1.target = ds.target ∧ n ∈ e.2.nodes) ∨ n ∈ vals.nodes) →
        s.holds n = true := by
  have hk' := killOutcome_some_of_unknown hu hk
  rw [mergeOne_fold hk']
  refine ⟨capSet env ds.target mss
    (((mapFindD m ⟨ds.target, ⟨UNKNOWN_OFFSET⟩, ⟨UNKNOWN_OFFSET⟩⟩).insertMany
        (foldConcretes m ds.target ⟨ds.target, ⟨UNKNOWN_OFFSET⟩, ⟨UNKNOWN_OFFSET⟩⟩)).1.insertMany
      vals.nodes).1, ?_, ?_⟩
  · apply entriesFor_mapSet_single
    · intro e he
      have := (List.mem_filter.mp he).2
      simpa using this
    · rfl
  · intro n hn
    apply capSet_holds
    rcases hn with ⟨e, he, ht, hmem⟩ | hv
    · apply insertMany_holds_mono
      by_cases hek : e.1 = ⟨ds.target, ⟨UNKNOWN_OFFSET⟩, ⟨UNKNOWN_OFFSET⟩⟩
      · have hfind : mapFind m ⟨ds.target, ⟨UNKNOWN_OFFSET⟩, ⟨UNKNOWN_OFFSET⟩⟩ = some e.2 := by
          rw [← hek]
          exact mapFind_of_sorted_mem hs he
        have hbase : mapFindD m ⟨ds.target, ⟨UNKNOWN_OFFSET⟩, ⟨UNKNOWN_OFFSET⟩⟩ = e.2 := by
          simp [mapFindD, hfind]
        rw [hbase]
        apply insertMany_holds_mono
        simp [RDNodesSet.holds, hmem]
      · exact insertMany_holds (mem_foldConcretes.mpr ⟨e, he, ht, hek, hmem⟩)
    · exact insertMany_holds hv

/-- C4 witness: folding the concrete entry `(T,0,4) -> {1}` of the map into
the incoming unknown-offset site `(T,UNKNOWN) -> {2}`. -/
theorem c4_fold_unknown_single_entry_witness :
    ∃ s, entriesFor (mergeOne ⟨fun _ => 4, fun _ => false, fun _ => false⟩
        [(⟨5, ⟨0⟩, ⟨4⟩⟩, ⟨{1}, false⟩)] ⟨5, ⟨UNKNOWN_OFFSET⟩, ⟨UNKNOWN_OFFSET⟩⟩
        ⟨{2}, false⟩ none true 100 true).1 5 =
      [(⟨5, ⟨UNKNOWN_OFFSET⟩, ⟨UNKNOWN_OFFSET⟩⟩, s)] ∧
    ∀ n, ((∃ e ∈ [((⟨5, ⟨0⟩, ⟨4⟩⟩ : DefSite), (⟨{1}, false⟩ : RDNodesSet))],
        e.1.target = 5 ∧ n ∈ e.2.nodes) ∨ n ∈ ({2} : Finset RDNode)) →
      s.holds n = true :=
  c4_fold_unknown_single_entry ⟨fun _ => 4, fun _ => false, fun _ => false⟩
    [(⟨5, ⟨0⟩, ⟨4⟩⟩, ⟨{1}, false⟩)] ⟨5, ⟨UNKNOWN_OFFSET⟩, ⟨UNKNOWN_OFFSET⟩⟩
    ⟨{2}, false⟩ none true 100 (by simp [sortedEntries]) (by decide) (by decide)

/-! ### Claim C5 -/

/-- C5 (counterexample to the claim as stated): merging a non-empty map
whose single entry has an empty node set into the empty map returns
`changed = false`, contradicting "changed = true iff S was non-empty"
(the structural copy itself is produced). -/
theorem c5_counterexample :
    RDMap.merge ⟨fun _ => 0, fun _ => false, fun _ => false⟩ ⟨[]⟩
        ⟨[(⟨0, ⟨0⟩, ⟨4⟩⟩, ⟨∅, false⟩)]⟩ false none true 100 false =
      (⟨[(⟨0, ⟨0⟩, ⟨4⟩⟩, ⟨∅, false⟩)]⟩, false) ∧
    (⟨[(⟨0, ⟨0⟩, ⟨4⟩⟩, ⟨∅, false⟩)]⟩ : RDMap).defs ≠ [] := by
  decide

/-- C5 (amended): merging a map S whose node sets are precise (not collapsed
to unknown) and within the size cap into an empty `RDMap` with no kill set —
which is what copy-construction does — produces a structural copy of S, and
returns `changed = true` iff some entry of S has a non-empty node set. -/
theorem c5_merge_into_empty_copy (env : NodeInfo) (su : Bool) (mss : Nat) (oth : RDMap)
    (hs : sortedEntries oth.defs)
    (hprec : ∀ e ∈ oth.defs, e.2.unknown = false)
    (hcard : ∀ e ∈ oth.defs, e.2.nodes.card ≤ mss)
    (hcard32 : ∀ e ∈ oth.defs, e.2.nodes.card ≤ 2 ^ 32 - 1) :
    (RDMap.merge env ⟨[]⟩ oth false none su mss false).1 = oth ∧
    ((RDMap.merge env ⟨[]⟩ oth false none su mss false).2 = true ↔
      ∃ e ∈ oth.defs, e.2.nodes ≠ ∅) ∧
    RDMap.copyCtor env oth = oth := by
  have h1 := @mergeList_copy env su mss oth.defs [] false
    (by simp) hs hprec hcard
  have h2 := @mergeList_copy env true (2 ^ 32 - 1) oth.defs [] false
    (by simp) hs hprec hcard32
  refine ⟨?_, ?_, ?_⟩
  · rw [RDMap.merge_eq, h1]
    simp
  · rw [RDMap.merge_eq, h1]
    simp [List.any_eq_true]
  · unfold RDMap.copyCtor
    rw [RDMap.merge_eq, h2]
    simp

/-- C5 witness: copying a concrete one-entry map. -/
theorem c5_merge_into_empty_copy_witness :
    (RDMap.merge ⟨fun _ => 0, fun _ => false, fun _ => false⟩ ⟨[]⟩
        ⟨[(⟨3, ⟨0⟩, ⟨4⟩⟩, ⟨{7}, false⟩)]⟩ false none true 100 false).1 =
      ⟨[(⟨3, ⟨0⟩, ⟨4⟩⟩, ⟨{7}, false⟩)]⟩ ∧
    ((RDMap.merge ⟨fun _ => 0, fun _ => false, fun _ => false⟩ ⟨[]⟩
        ⟨[(⟨3, ⟨0⟩, ⟨4⟩⟩, ⟨{7}, false⟩)]⟩ false none true 100 false).2 = true ↔
      ∃ e ∈ ([(⟨3, ⟨0⟩, ⟨4⟩⟩, ⟨{7}, false⟩)] : Entries), e.2.nodes ≠ ∅) :=
  have h := c5_merge_into_empty_copy ⟨fun _ => 0, fun _ => false, fun _ => false⟩ true 100
    ⟨[(⟨3, ⟨0⟩, ⟨4⟩⟩, ⟨{7}, false⟩)]⟩ (by simp [sortedEntries]) (by decide) (by decide)
    (by decide)
  ⟨h.1, h.2.1⟩

/-! ### Claim C6 -/

/-- C6 (counterexample to the claim as stated): with `foldUnknown = true`,
repeating an identical merge (unchanged source, unchanged destination)
returns `changed = true` again — the source's concrete entry is re-created
and then re-folded away — even though the map is left unchanged. -/
theorem c6_counterexample :
    (RDMap.merge ⟨fun _ => 4, fun _ => false, fun _ => false⟩
        (RDMap.merge ⟨fun _ => 4, fun _ => false, fun _ => false⟩ ⟨[]⟩
          ⟨[(⟨0, ⟨0⟩, ⟨4⟩⟩, ⟨{1}, false⟩),
            (⟨0, ⟨UNKNOWN_OFFSET⟩, ⟨UNKNOWN_OFFSET⟩⟩, ⟨{2}, false⟩)]⟩
          false none true 100 true).1
        ⟨[(⟨0, ⟨0⟩, ⟨4⟩⟩, ⟨{1}, false⟩),
          (⟨0, ⟨UNKNOWN_OFFSET⟩, ⟨UNKNOWN_OFFSET⟩⟩, ⟨{2}, false⟩)]⟩
        false none true 100 true).2 = true ∧
    (RDMap.merge ⟨fun _ => 4, fun _ => false, fun _ => false⟩
        (RDMap.merge ⟨fun _ => 4, fun _ => false, fun _ => false⟩ ⟨[]⟩
          ⟨[(⟨0, ⟨0⟩, ⟨4⟩⟩, ⟨{1}, false⟩),
            (⟨0, ⟨UNKNOWN_OFFSET⟩, ⟨UNKNOWN_OFFSET⟩⟩, ⟨{2}, false⟩)]⟩
          false none true 100 true).1
        ⟨[(⟨0, ⟨0⟩, ⟨4⟩⟩, ⟨{1}, false⟩),
          (⟨0, ⟨UNKNOWN_OFFSET⟩, ⟨UNKNOWN_OFFSET⟩⟩, ⟨{2}, false⟩)]⟩
        false none true 100 true).1 =
      (RDMap.merge ⟨fun _ => 4, fun _ => false, fun _ => false⟩ ⟨[]⟩
        ⟨[(⟨0, ⟨0⟩, ⟨4⟩⟩, ⟨{1}, false⟩),
          (⟨0, ⟨UNKNOWN_OFFSET⟩, ⟨UNKNOWN_OFFSET⟩⟩, ⟨{2}, false⟩)]⟩
        false none true 100 true).1 := by
  decide

/-- C6 (amended): with `foldUnknown = false`, repeating a merge with an
unchanged source returns `changed = false` and leaves the map unchanged;
merging a distinct equal copy of a sorted map whose node sets are within the
cap is a no-op returning `false`; and a self-merge (`this == oth`) returns
`false` without mutating the map, for any flag values. -/
theorem c6_merge_idempotent (env : NodeInfo) (m oth : RDMap) (noUpd : Option (List DefSite))
    (su : Bool) (mss : Nat) (fold : Bool)
    (hs : sortedEntries m.defs)
    (hcap : ∀ e ∈ m.defs, env.unknownMem e.1.target = true ∨ e.2.nodes.card ≤ mss) :
    RDMap.merge env (RDMap.merge env m oth false noUpd su mss false).1 oth false
        noUpd su mss false =
      ((RDMap.merge env m oth false noUpd su mss false).1, false) ∧
    RDMap.merge env m m false noUpd su mss false = (m, false) ∧
    RDMap.merge env m oth true noUpd su mss fold = (m, false) := by
  refine ⟨?_, ?_, rfl⟩
  · have hr : (RDMap.merge env m oth false noUpd su mss false).1 =
        ⟨(mergeList env noUpd su mss false m.defs oth.defs false).1⟩ := by
      rw [RDMap.merge_eq]
    rw [hr, RDMap.merge_eq]
    have hsorted1 : sortedEntries (mergeList env noUpd su mss false m.defs oth.defs false).1 :=
      mergeList_sorted env noUpd su mss false oth.defs m.defs false hs
    have hfix := mergeList_fixed oth.defs
      (mergeList env noUpd su mss false m.defs oth.defs false).1 false
      (fun e he => mergeOne_of_stable hsorted1
        (mergeList_establishes_stable oth.defs m.defs false e he))
    rw [hfix]
  · rw [RDMap.merge_eq]
    have hfix := @mergeList_fixed env noUpd su mss m.defs m.defs false
      (fun e he => mergeOne_of_stable hs
        (Or.inr ⟨e.2, mapFind_of_sorted_mem hs he, Or.inr (Finset.Subset.refl _),
          hcap e he⟩))
    rw [hfix]

/-- C6 witness: idempotence of a concrete non-folding merge. -/
theorem c6_merge_idempotent_witness :
    RDMap.merge ⟨fun _ => 4, fun _ => false, fun _ => false⟩
        (RDMap.merge ⟨fun _ => 4, fun _ => false, fun _ => false⟩ ⟨[]⟩
          ⟨[(⟨0, ⟨0⟩, ⟨4⟩⟩, ⟨{1}, false⟩)]⟩ false none true 100 false).1
        ⟨[(⟨0, ⟨0⟩, ⟨4⟩⟩, ⟨{1}, false⟩)]⟩ false none true 100 false =
      ((RDMap.merge ⟨fun _ => 4, fun _ => false, fun _ => false⟩ ⟨[]⟩
          ⟨[(⟨0, ⟨0⟩, ⟨4⟩⟩, ⟨{1}, false⟩)]⟩ false none true 100 false).1, false) :=
  (c6_merge_idempotent ⟨fun _ => 4, fun _ => false, fun _ => false⟩ ⟨[]⟩
    ⟨[(⟨0, ⟨0⟩, ⟨4⟩⟩, ⟨{1}, false⟩)]⟩ none true 100 false
    (by simp [sortedEntries]) (by simp)).1

/-! ### Claim C7 -/

/-- C7: for a concrete-offset query, `RDMap::get` unions exactly the node
sets of the same-target entries matched by `getMatches` (candidate offset
unknown, or unknown query length with candidate offset at or past the query
offset, or inclusive byte ranges overlapping); over entries `[0,4)` and
`[4,8)`, `get(obj,2,1)` returns only the `[0,4)` nodes and `get(obj,4,1)`
only the `[4,8)` nodes. -/
theorem c7_get_overlap :
    (∀ (m : RDMap) (ds : DefSite) (ret : Finset RDNode) (n : RDNode),
      ds.offset.isUnknown = false →
      (n ∈ (m.get ds ret).1 ↔ n ∈ ret ∨ ∃ e ∈ m.defs, e.1.target = ds.target ∧
        getMatches ds e.1 = true ∧ n ∈ e.2.nodes)) ∧
    RDMap.getNOL ⟨[(⟨7, ⟨0⟩, ⟨4⟩⟩, ⟨{1}, false⟩), (⟨7, ⟨4⟩, ⟨4⟩⟩, ⟨{2}, false⟩)]⟩
      7 ⟨2⟩ ⟨1⟩ ∅ = ({1}, 1) ∧
    RDMap.getNOL ⟨[(⟨7, ⟨0⟩, ⟨4⟩⟩, ⟨{1}, false⟩), (⟨7, ⟨4⟩, ⟨4⟩⟩, ⟨{2}, false⟩)]⟩
      7 ⟨4⟩ ⟨1⟩ ∅ = ({2}, 1) := by
  refine ⟨?_, by decide, by decide⟩
  intro m ds ret n hconc
  rw [RDMap.get_concrete m ds ret hconc]
  simp only []
  rw [mem_foldr_union_if]
  constructor
  · rintro (h | ⟨e, he, hp, hn⟩)
    · exact Or.inl h
    · rcases List.mem_filter.mp he with ⟨hem, ht⟩
      exact Or.inr ⟨e, hem, by simpa using ht, hp, hn⟩
  · rintro (h | ⟨e, hem, ht, hp, hn⟩)
    · exact Or.inl h
    · exact Or.inr ⟨e, List.mem_filter.mpr ⟨hem, by simpa using ht⟩, hp, hn⟩

/-- C7 witness: the membership characterisation at a concrete query. -/
theorem c7_get_overlap_witness :
    1 ∈ ((⟨[(⟨7, ⟨0⟩, ⟨4⟩⟩, ⟨{1}, false⟩)]⟩ : RDMap).get ⟨7, ⟨2⟩, ⟨1⟩⟩ ∅).1 ↔
      1 ∈ (∅ : Finset RDNode) ∨
        ∃ e ∈ ([(⟨7, ⟨0⟩, ⟨4⟩⟩, ⟨{1}, false⟩)] : Entries), e.1.target = 7 ∧
          getMatches ⟨7, ⟨2⟩, ⟨1⟩⟩ e.1 = true ∧ 1 ∈ e.2.nodes :=
  c7_get_overlap.1 ⟨[(⟨7, ⟨0⟩, ⟨4⟩⟩, ⟨{1}, false⟩)]⟩ ⟨7, ⟨2⟩, ⟨1⟩⟩ ∅ 1 (by decide)

/-! ### Claim C8 -/

/-- C8: `MemoryObj::setUnknown` returns `true` and discards all points-to
data on its first call; afterwards the object is permanently unknown:
`setUnknown` returns `false` and every `addPointsTo` returns `false` and
leaves the (empty) points-to map unchanged. -/
theorem c8_setUnknown_permanent (m : MemoryObj) (h : m.isUnknown = false) :
    (m.setUnknown.2 = true ∧ m.setUnknown.1.pointsTo = [] ∧
      m.setUnknown.1.isUnknown = true) ∧
    m.setUnknown.1.setUnknown = (m.setUnknown.1, false) ∧
    ∀ off ptr, m.setUnknown.1.addPointsTo off ptr = (m.setUnknown.1, false) := by
  have hstep : m.setUnknown = (⟨none, []⟩, true) := by
    unfold MemoryObj.setUnknown
    rw [if_neg (by simp [h])]
  rw [hstep]
  exact ⟨⟨rfl, rfl, rfl⟩, rfl, fun _ _ => rfl⟩

/-- C8 witness: a concrete precise object. -/
theorem c8_setUnknown_permanent_witness :
    ((⟨some 0, []⟩ : MemoryObj).setUnknown.2 = true ∧
      (⟨some 0, []⟩ : MemoryObj).setUnknown.1.pointsTo = [] ∧
      (⟨some 0, []⟩ : MemoryObj).setUnknown.1.isUnknown = true) ∧
    (⟨some 0, []⟩ : MemoryObj).setUnknown.1.setUnknown =
      ((⟨some 0, []⟩ : MemoryObj).setUnknown.1, false) ∧
    ∀ off ptr, (⟨some 0, []⟩ : MemoryObj).setUnknown.1.addPointsTo off ptr =
      ((⟨some 0, []⟩ : MemoryObj).setUnknown.1, false) :=
  c8_setUnknown_permanent ⟨some 0, []⟩ (by decide)

/-! ### Claim C9 -/

/-- C9: both `RDMap::get` overloads only insert into the caller-supplied
result set (never remove or clear), the returned value is the size of the
set after insertion — so pre-existing elements are counted — and the
four-argument overload delegates to the `DefSite` overload. -/
theorem c9_get_only_inserts (m : RDMap) (ds : DefSite) (ret : Finset RDNode)
    (n : RDNode) (off len : Offset) :
    ret ⊆ (m.get ds ret).1 ∧ (m.get ds ret).2 = (m.get ds ret).1.card ∧
    ret.card ≤ (m.get ds ret).2 ∧
    m.getNOL n off len ret = m.get ⟨n, off, len⟩ ret := by
  have hsub : ret ⊆ (m.get ds ret).1 := by
    by_cases h : ds.offset.isUnknown = true
    · rw [RDMap.get_unknown m ds ret h]
      exact subset_foldr_union _ _
    · rw [RDMap.get_concrete m ds ret (Bool.of_not_eq_true h)]
      exact subset_foldr_union_if _ _ _
  have hcd : (m.get ds ret).2 = (m.get ds ret).1.card := rfl
  refine ⟨hsub, hcd, ?_, rfl⟩
  rw [hcd]
  exact Finset.card_le_card hsub

/-! ### Claim C10 -/

/-- C10: the folding step itself sets the `changed` flag: merging the
unknown-offset entry `(T,UNKNOWN) -> {1}` into a map already holding
`(T,0,4) -> {1}` returns `changed = true` although every node in the
source's node sets was already present in the map. -/
theorem c10_fold_changed_flag :
    (∀ e ∈ ([(⟨0, ⟨UNKNOWN_OFFSET⟩, ⟨UNKNOWN_OFFSET⟩⟩, ⟨{1}, false⟩)] : Entries),
      ∀ n ∈ e.2.nodes, ∃ f ∈ ([(⟨0, ⟨0⟩, ⟨4⟩⟩, ⟨{1}, false⟩)] : Entries), n ∈ f.2.nodes) ∧
    (RDMap.merge ⟨fun _ => 4, fun _ => false, fun _ => false⟩
      ⟨[(⟨0, ⟨0⟩, ⟨4⟩⟩, ⟨{1}, false⟩)]⟩
      ⟨[(⟨0, ⟨UNKNOWN_OFFSET⟩, ⟨UNKNOWN_OFFSET⟩⟩, ⟨{1}, false⟩)]⟩
      false none true 100 true).2 = true := by
  decide

end DG
